import Mathlib

/-!
# Pawn-structure evaluator and cache: a verification development

Shallow embedding of the pawn-structure evaluation core (`pawns.cpp`) and the
seed contract of the pseudorandom generator (`prng.h`).

Squares are indexed 0..63 with `file = index % 8` and `rank = index / 8`
(square a1 = 0, h1 = 7, a8 = 56).  Bitboards are embedded as `Finset (Fin 64)`.
A phase-weighted `Score` is a pair `(midgame, endgame)` of integers.

The bitboard helper masks (`forward_bb`, `pawn_attack_span`,
`passed_pawn_mask`, `adjacent_files_bb`, attack lookups, shifts, distance
rings) live in headers that are not part of the two provided source files;
they are modelled from the spec's descriptions, as noted on each definition.
-/

namespace Pawns

/-- A board square, index 0..63. -/
abbrev Square := Fin 64

/-- The two sides. -/
inductive Color where
  | white
  | black
deriving DecidableEq, Repr, Fintype

open Color

/-- The opposite color (`Them` in the source). -/
def other : Color → Color
  | white => black
  | black => white

/-- File of a square (0 = file A .. 7 = file H). -/
def fileOf (s : Square) : Nat := s.val % 8

/-- Rank of a square (0 = rank 1 .. 7 = rank 8). -/
def rankOf (s : Square) : Nat := s.val / 8

/-- File of a square as an element of `Fin 8`, for the semi-open file mask. -/
def fileIdx (s : Square) : Fin 8 := ⟨s.val % 8, by omega⟩

/-- `relative_rank(c, s)`: rank counted from side `c`'s own back rank. -/
def relRank (c : Color) (s : Square) : Nat :=
  match c with
  | white => rankOf s
  | black => 7 - rankOf s

/-- `make_square(f, r)`: the square with file `f` and rank `r`
(well-defined for `f, r ≤ 7`; out-of-range inputs are reduced mod 8). -/
def mkSquare (f r : Nat) : Square :=
  ⟨8 * (r % 8) + f % 8, by omega⟩

/-- Vertical mirror of a square: same file, rank `7 - r`
(`relative_square(BLACK, s)`, i.e. `s ^ 56`). -/
def flipSq (s : Square) : Square :=
  ⟨s.val % 8 + 8 * (7 - s.val / 8), by omega⟩

/-- `relative_square(c, s)`: `s` for White, the vertical mirror for Black. -/
def relative_square (c : Color) (s : Square) : Square :=
  match c with
  | white => s
  | black => flipSq s

/-- Modelled from the spec (bitboard helper, not in the provided sources):
the set of squares of rank `r`. -/
def rank_bb (r : Nat) : Finset Square :=
  Finset.univ.filter (fun t => rankOf t = r)

/-- Modelled from the spec (bitboard helper, not in the provided sources):
the set of squares of file `f`. -/
def file_bb (f : Nat) : Finset Square :=
  Finset.univ.filter (fun t => fileOf t = f)

/-- Modelled from the spec (bitboard helper, not in the provided sources):
"files adjacent to a square" — all squares on the files bordering `f`. -/
def adjacent_files_bb (f : Nat) : Finset Square :=
  Finset.univ.filter (fun t => fileOf t + 1 = f ∨ fileOf t = f + 1)

/-- Modelled from the spec (bitboard helper, not in the provided sources):
"ranks ahead relative to a side" — squares strictly in front of rank `r`
from side `c`'s point of view. -/
def in_front_bb (c : Color) (r : Nat) : Finset Square :=
  match c with
  | white => Finset.univ.filter (fun t => r < rankOf t)
  | black => Finset.univ.filter (fun t => rankOf t < r)

/-- Modelled from the spec (bitboard helper, not in the provided sources):
the squares strictly ahead of `s` on the same file. -/
def forward_bb (c : Color) (s : Square) : Finset Square :=
  file_bb (fileOf s) ∩ in_front_bb c (rankOf s)

/-- Modelled from the spec (bitboard helper, not in the provided sources):
"pawn attack span" — the cone of squares strictly ahead of `s` on the
adjacent files. -/
def pawn_attack_span (c : Color) (s : Square) : Finset Square :=
  adjacent_files_bb (fileOf s) ∩ in_front_bb c (rankOf s)

/-- Modelled from the spec (bitboard helper, not in the provided sources):
"passed-pawn mask (same and adjacent files, all ranks ahead)". -/
def passed_pawn_mask (c : Color) (s : Square) : Finset Square :=
  forward_bb c s ∪ pawn_attack_span c s

/-- Modelled from the spec (direct pawn-attack lookup, not in the provided
sources): the squares a pawn of color `c` standing on `s` attacks — the two
diagonally-forward squares. -/
def pawnAttacksBB (c : Color) (s : Square) : Finset Square :=
  match c with
  | white => Finset.univ.filter (fun t =>
      (fileOf t + 1 = fileOf s ∨ fileOf t = fileOf s + 1) ∧ rankOf t = rankOf s + 1)
  | black => Finset.univ.filter (fun t =>
      (fileOf t + 1 = fileOf s ∨ fileOf t = fileOf s + 1) ∧ rankOf t + 1 = rankOf s)

/-- The square `k` indices below `s` (used to express bit shifts). -/
def sqSub (s : Square) (k : Nat) : Square :=
  ⟨s.val - k, Nat.lt_of_le_of_lt (Nat.sub_le _ _) s.isLt⟩

/-- The square `k` indices above `s`, wrapping mod 64 (only used under a
guard that rules the wrap out). -/
def sqAdd (s : Square) (k : Nat) : Square :=
  ⟨(s.val + k) % 64, Nat.mod_lt _ (by omega)⟩

/-- Modelled from the spec (bitboard shift, not in the provided sources):
`shift_bb<Up>` — one step toward the opponent's back rank. -/
def shift_bb_up (c : Color) (b : Finset Square) : Finset Square :=
  match c with
  | white => Finset.univ.filter (fun t => 8 ≤ t.val ∧ sqSub t 8 ∈ b)
  | black => Finset.univ.filter (fun t => t.val < 56 ∧ sqAdd t 8 ∈ b)

/-- Modelled from the spec (bitboard shift, not in the provided sources):
`shift_bb<DELTA_NE>` — `(b << 9) & ~FileABB`. -/
def shiftNE (b : Finset Square) : Finset Square :=
  Finset.univ.filter (fun t => fileOf t ≠ 0 ∧ 9 ≤ t.val ∧ sqSub t 9 ∈ b)

/-- Modelled from the spec (bitboard shift, not in the provided sources):
`shift_bb<DELTA_NW>` — `(b << 7) & ~FileHBB`. -/
def shiftNW (b : Finset Square) : Finset Square :=
  Finset.univ.filter (fun t => fileOf t ≠ 7 ∧ 7 ≤ t.val ∧ sqSub t 7 ∈ b)

/-- Modelled from the spec (bitboard shift, not in the provided sources):
`shift_bb<DELTA_SW>` — `(b >> 9) & ~FileHBB`. -/
def shiftSW (b : Finset Square) : Finset Square :=
  Finset.univ.filter (fun t => fileOf t ≠ 7 ∧ t.val + 9 < 64 ∧ sqAdd t 9 ∈ b)

/-- Modelled from the spec (bitboard shift, not in the provided sources):
`shift_bb<DELTA_SE>` — `(b >> 7) & ~FileABB`. -/
def shiftSE (b : Finset Square) : Finset Square :=
  Finset.univ.filter (fun t => fileOf t ≠ 0 ∧ t.val + 7 < 64 ∧ sqAdd t 7 ∈ b)

/-- Modelled from the spec (bitboard helper, not in the provided sources):
`backmost_sq(c, b)` — the least-advanced square of `b` from `c`'s point of
view (`lsb` for White, `msb` for Black).  Total: an arbitrary square is
returned for the empty set, which the source never queries. -/
def backmost_sq (c : Color) (b : Finset Square) : Square :=
  if h : b.Nonempty then
    match c with
    | white => b.min' h
    | black => b.max' h
  else ⟨0, by omega⟩

/-- Modelled from the spec (bitboard helper, not in the provided sources):
`frontmost_sq(c, b)` — the most advanced square of `b` from `c`'s point of
view (`msb` for White, `lsb` for Black). -/
def frontmost_sq (c : Color) (b : Finset Square) : Square :=
  if h : b.Nonempty then
    match c with
    | white => b.max' h
    | black => b.min' h
  else ⟨0, by omega⟩

/-- Modelled from the spec (bitboard constant, not in the provided sources):
the dark squares (a1 is dark). -/
def DarkSquares : Finset Square :=
  Finset.univ.filter (fun s => (fileOf s + rankOf s) % 2 = 0)

/-- Modelled from the spec ("expanding ring search"; bitboard constant not in
the provided sources): `DistanceRingsBB[ksq][d]` — squares at Chebyshev
distance `d + 1` from `ksq`. -/
def DistanceRingsBB (ksq : Square) (d : Nat) : Finset Square :=
  Finset.univ.filter (fun t =>
    max ((fileOf t : Int) - fileOf ksq).natAbs ((rankOf t : Int) - rankOf ksq).natAbs = d + 1)

/-- A phase-weighted score: `(midgame, endgame)`. -/
abbrev Score := Int × Int

/-- `make_score(mg, eg)`. -/
def make_score (mg eg : Int) : Score := (mg, eg)

/-- Score division by an integer: C++ `operator/(Score, int)` divides both
phase components. -/
def scoreDiv (sc : Score) (n : Nat) : Score := (sc.1 / (n : Int), sc.2 / (n : Int))

/-! ## Constant evaluation tables (`pawns.cpp`, lines 33-76 and `init()`) -/

/-- Doubled pawn penalty by file. -/
def DoubledT (f : Nat) : Score :=
  ([(13, 43), (20, 48), (23, 48), (23, 48),
    (23, 48), (23, 48), (20, 48), (13, 43)] : List Score).getD f (0, 0)

/-- Isolated pawn penalty by opposed flag and file. -/
def IsolatedT (opposed : Bool) (f : Nat) : Score :=
  if opposed then
    ([(25, 30), (36, 35), (40, 35), (40, 35),
      (40, 35), (40, 35), (36, 35), (25, 30)] : List Score).getD f (0, 0)
  else
    ([(37, 45), (54, 52), (60, 52), (60, 52),
      (60, 52), (60, 52), (54, 52), (37, 45)] : List Score).getD f (0, 0)

/-- Backward pawn penalty by opposed flag and file. -/
def BackwardT (opposed : Bool) (f : Nat) : Score :=
  if opposed then
    ([(20, 28), (29, 31), (33, 31), (33, 31),
      (33, 31), (33, 31), (29, 31), (20, 28)] : List Score).getD f (0, 0)
  else
    ([(30, 42), (43, 46), (49, 46), (49, 46),
      (49, 46), (49, 46), (43, 46), (30, 42)] : List Score).getD f (0, 0)

/-- Levers bonus by rank. -/
def LeverT (r : Nat) : Score :=
  ([(0, 0), (0, 0), (0, 0), (0, 0),
    (20, 20), (40, 40), (0, 0), (0, 0)] : List Score).getD r (0, 0)

/-- Unsupported pawn penalty. -/
def UnsupportedPawnPenalty : Score := (20, 10)

/-- The `Seed` array of `Pawns::init()`. -/
def SeedT (r : Nat) : Nat :=
  ([0, 6, 15, 10, 57, 75, 135, 258] : List Nat).getD r 0

/-- Connected pawn bonus by opposed, phalanx flags and rank, as filled in by
`Pawns::init()` for ranks 2..7 (zero elsewhere, from static initialization).
`init()` works in signed int arithmetic: at rank index 2 the phalanx
difference `Seed[3] - Seed[2] = -5` divides, truncating toward zero as C++
does, to `-2` (hence `Int.tdiv`); the resulting bonus is nonnegative at
every rank, so `bonus >> opposed` is the plain right shift. -/
def ConnectedT (opposed phalanx : Bool) (r : Nat) : Score :=
  if 1 ≤ r ∧ r < 7 then
    let bonus : Int :=
      (SeedT r : Int)
        + (if phalanx then Int.tdiv ((SeedT (r + 1) : Int) - (SeedT r : Int)) 2 else 0)
    (Int.tdiv bonus 2, bonus >>> (if opposed then 1 else 0))
  else (0, 0)

/-- Weakness of our pawn shelter in front of the king, indexed by rank
(seven initializers; the eighth slot is zero from aggregate initialization). -/
def ShelterWeaknessT (r : Nat) : Int :=
  ([100, 0, 27, 73, 92, 101, 101, 0] : List Int).getD r 0

/-- Danger of enemy pawns moving toward our king, indexed by
`[no friendly pawn | pawn unblocked | pawn blocked]` and the enemy pawn's
rank (five initializers per row; remaining slots zero). -/
def StormDangerT (i r : Nat) : Int :=
  (([[0, 64, 128, 51, 26],
     [26, 32, 96, 38, 20],
     [0, 0, 160, 25, 13]] : List (List Int)).getD i []).getD r 0

/-- Max bonus for king safety. -/
def MaxSafetyBonus : Int := 263

/-! ## Per-pawn classification flags (`evaluate`, lines 107-158)

Each flag is computed for the pawn on square `s` of side `us`, from the
side's own pawn set `ours` and the opponent's pawn set `theirs`, exactly as
in the per-pawn loop body. -/

/-- Rank of the square one step behind `s` from `us`'s point of view
(`rank_bb(s - pawn_push(Us))`). -/
def prevRank (us : Color) (s : Square) : Nat :=
  match us with
  | white => rankOf s - 1
  | black => rankOf s + 1

/-- `connected = ourPawns & adjacent_files_bb(f) & (rank_bb(s) | p)`. -/
def connectedBB (us : Color) (ours : Finset Square) (s : Square) : Finset Square :=
  ours ∩ adjacent_files_bb (fileOf s) ∩ (rank_bb (rankOf s) ∪ rank_bb (prevRank us s))

/-- Connected flag: the `connected` bitboard is nonempty. -/
def connectedF (us : Color) (ours : Finset Square) (s : Square) : Bool :=
  decide (connectedBB us ours s).Nonempty

/-- `phalanx = connected & rank_bb(s)`. -/
def phalanxBB (us : Color) (ours : Finset Square) (s : Square) : Finset Square :=
  connectedBB us ours s ∩ rank_bb (rankOf s)

/-- Phalanx flag: the `phalanx` bitboard is nonempty. -/
def phalanxF (us : Color) (ours : Finset Square) (s : Square) : Bool :=
  decide (phalanxBB us ours s).Nonempty

/-- `unsupported = !(ourPawns & adjacent_files_bb(f) & p)`. -/
def unsupportedF (us : Color) (ours : Finset Square) (s : Square) : Bool :=
  decide (ours ∩ adjacent_files_bb (fileOf s) ∩ rank_bb (prevRank us s) = ∅)

/-- `isolated = !(ourPawns & adjacent_files_bb(f))`. -/
def isolatedF (ours : Finset Square) (s : Square) : Bool :=
  decide (ours ∩ adjacent_files_bb (fileOf s) = ∅)

/-- `doubled = ourPawns & forward_bb(Us, s)`. -/
def doubledBB (us : Color) (ours : Finset Square) (s : Square) : Finset Square :=
  ours ∩ forward_bb us s

/-- Doubled flag: an own pawn exists strictly ahead on the same file. -/
def doubledF (us : Color) (ours : Finset Square) (s : Square) : Bool :=
  decide (doubledBB us ours s).Nonempty

/-- `opposed = theirPawns & forward_bb(Us, s)`. -/
def opposedF (us : Color) (theirs : Finset Square) (s : Square) : Bool :=
  decide (theirs ∩ forward_bb us s).Nonempty

/-- `passed = !(theirPawns & passed_pawn_mask(Us, s))`. -/
def passedF (us : Color) (theirs : Finset Square) (s : Square) : Bool :=
  decide (theirs ∩ passed_pawn_mask us s = ∅)

/-- `lever = theirPawns & pawnAttacksBB[s]`. -/
def leverF (us : Color) (theirs : Finset Square) (s : Square) : Bool :=
  decide (theirs ∩ pawnAttacksBB us s).Nonempty

/-- The backward-pawn test (lines 130-150): `false` when the pawn is passed,
isolated or connected, has a friendly pawn behind on an adjacent file, or can
capture an enemy pawn; otherwise scan the forward attack span for the closest
pawn (of either color) and test whether an enemy pawn occupies that rank or
the rank immediately ahead of it. -/
def backwardF (us : Color) (ours theirs : Finset Square) (s : Square) : Bool :=
  if passedF us theirs s || isolatedF ours s || connectedF us ours s
     || decide (ours ∩ pawn_attack_span (other us) s).Nonempty
     || decide (pawnAttacksBB us s ∩ theirs).Nonempty then
    false
  else
    let b := pawn_attack_span us s ∩ (ours ∪ theirs)
    let b2 := pawn_attack_span us s ∩ rank_bb (rankOf (backmost_sq us b))
    decide ((b2 ∪ shift_bb_up us b2) ∩ theirs).Nonempty

/-- The score contribution of one pawn (lines 160-177): penalties subtract,
bonuses add, exactly in the source's order. -/
def pawnScore (us : Color) (ours theirs : Finset Square) (s : Square) : Score :=
  let f := fileOf s
  (if isolatedF ours s then -(IsolatedT (opposedF us theirs s) f) else 0)
  + (if unsupportedF us ours s && !isolatedF ours s then -UnsupportedPawnPenalty else 0)
  + (if doubledF us ours s then
      -(scoreDiv (DoubledT f)
          ((rankOf s : Int) - (rankOf (frontmost_sq us (doubledBB us ours s)) : Int)).natAbs)
     else 0)
  + (if backwardF us ours theirs s then -(BackwardT (opposedF us theirs s) f) else 0)
  + (if connectedF us ours s then
      ConnectedT (opposedF us theirs s) (phalanxF us ours s) (relRank us s)
     else 0)
  + (if leverF us theirs s then LeverT (relRank us s) else 0)

/-- The accumulated classifier score for one side: the per-pawn loop's
`value` (scan-order independent, hence a set sum). -/
def evaluateValue (us : Color) (ours theirs : Finset Square) : Score :=
  ∑ s ∈ ours, pawnScore us ours theirs s

/-! ## Per-side structural results written into the entry by `evaluate` -/

/-- `passedPawns[Us]`: squares flagged by `if (passed && !doubled)`. -/
def passedPawnsOf (us : Color) (ours theirs : Finset Square) : Finset Square :=
  ours.filter (fun s => passedF us theirs s && !doubledF us ours s)

/-- `semiopenFiles[Us]`: starts as `0xFF` and the loop clears the file bit of
every own pawn — the files containing no own pawn. -/
def semiopenFilesOf (ours : Finset Square) : Finset (Fin 8) :=
  Finset.univ \ ours.image fileIdx

/-- `pawnAttacks[Us] = shift_bb<Right>(ourPawns) | shift_bb<Left>(ourPawns)`. -/
def pawnAttacksOf (us : Color) (ours : Finset Square) : Finset Square :=
  match us with
  | white => shiftNE ours ∪ shiftNW ours
  | black => shiftSW ours ∪ shiftSE ours

/-- `pawnsOnSquares[Us][shade]`: number of own pawns on dark squares
(`shade = BLACK`) respectively light squares (`shade = WHITE`). -/
def pawnsOnSquaresOf (ours : Finset Square) (shade : Color) : Nat :=
  match shade with
  | black => (ours ∩ DarkSquares).card
  | white => ours.card - (ours ∩ DarkSquares).card

/-- `pawnSpan[Us]` (lines 180-181): `b = semiopenFiles ^ 0xFF`, then
`msb(b) - lsb(b)` when `b` is nonzero, else `0`. -/
def pawnSpanOf (ours : Finset Square) : Nat :=
  let b := Finset.univ \ semiopenFilesOf ours
  if h : b.Nonempty then (b.max' h).val - (b.min' h).val else 0

/-! ## The position interface consumed by this core (spec §6) -/

/-- The read-only slice of the host position this core consumes: per-side
pawn sets, the opaque structural fingerprint (`pawn_key()`), and the
castling-rights flags per side. -/
structure Position where
  pawns : Color → Finset Square
  pawnKey : Nat
  canCastleK : Color → Bool
  canCastleQ : Color → Bool

/-- Well-formed pawn placement: pawns stand on ranks 2..7 only (a pawn never
occupies its own or the opponent's back rank). -/
def WellFormed (pos : Position) : Prop :=
  ∀ c : Color, ∀ s ∈ pos.pawns c, 1 ≤ rankOf s ∧ rankOf s ≤ 6

/-- The color-flipped mirror of a position: each side takes the other side's
pawns reflected to the opposite half of the board, and the other side's
castling rights.  The fingerprint is opaque and plays no role in the
classifier, so it is kept. -/
def mirror (pos : Position) : Position where
  pawns := fun c => (pos.pawns (other c)).image flipSq
  pawnKey := pos.pawnKey
  canCastleK := fun c => pos.canCastleK (other c)
  canCastleQ := fun c => pos.canCastleQ (other c)

/-! ## Cache entry and table (`probe`, lines 212-223; table modelled from
spec §3/§4.1, the `HashTable` template being outside the provided sources) -/

/-- One cache entry: the fields of `Pawns::Entry` that this core reads or
writes. -/
structure Entry where
  key : Nat
  value : Score
  passedPawns : Color → Finset Square
  kingSquares : Color → Option Square
  semiopenFiles : Color → Finset (Fin 8)
  pawnAttacks : Color → Finset Square
  pawnsOnSquares : Color → Color → Nat
  pawnSpan : Color → Nat
  castlingRights : Color → Bool × Bool
  minKingPawnDistance : Color → Nat

/-- The White-relative pawn-structure score a probe miss computes:
`evaluate<WHITE>(pos, e) - evaluate<BLACK>(pos, e)`. -/
def entryValue (pos : Position) : Score :=
  evaluateValue white (pos.pawns white) (pos.pawns black)
  - evaluateValue black (pos.pawns black) (pos.pawns white)

/-- Repopulating an entry in place on a cache miss: `key` and `value` are
set, and `evaluate` (run for both sides) overwrites every per-side
structural field, resetting the king-safety memo key `kingSquares` to
"none".  The fields `evaluate` does not touch (`castlingRights`,
`minKingPawnDistance`) keep their previous contents; they are guarded by the
invalidated king-square memo. -/
def computeEntry (old : Entry) (pos : Position) : Entry where
  key := pos.pawnKey
  value := entryValue pos
  passedPawns := fun c => passedPawnsOf c (pos.pawns c) (pos.pawns (other c))
  kingSquares := fun _ => none
  semiopenFiles := fun c => semiopenFilesOf (pos.pawns c)
  pawnAttacks := fun c => pawnAttacksOf c (pos.pawns c)
  pawnsOnSquares := fun c shade => pawnsOnSquaresOf (pos.pawns c) shade
  pawnSpan := fun c => pawnSpanOf (pos.pawns c)
  castlingRights := old.castlingRights
  minKingPawnDistance := old.minKingPawnDistance

/-- Modelled from the spec §3 (the `HashTable` template is not in the
provided sources): a fixed-capacity direct-mapped table, addressed by the
fingerprint's low-order bits (`key & (N-1)`, i.e. `key % N` for the
power-of-two capacity `N`). -/
structure Table where
  size : Nat
  slots : Nat → Entry

/-- `Pawns::probe` (lines 212-223): look up the slot for the position's pawn
key; on a key match return the entry unchanged, otherwise repopulate the
slot by running the classifier for both sides.  The returned `Bool` records
whether the classifier ran (miss), instrumenting the claim about eviction. -/
def probe (pos : Position) (t : Table) : Entry × Table × Bool :=
  if (t.slots (pos.pawnKey % t.size)).key = pos.pawnKey then
    (t.slots (pos.pawnKey % t.size), t, false)
  else
    (computeEntry (t.slots (pos.pawnKey % t.size)) pos,
     ⟨t.size, fun j => if j = pos.pawnKey % t.size
                       then computeEntry (t.slots (pos.pawnKey % t.size)) pos
                       else t.slots j⟩,
     true)

/-! ## King safety (`shelter_storm` lines 229-260, `do_king_safety` 266-290) -/

/-- `Edges = (FileABB | FileHBB) & (Rank2BB | Rank3BB)`. -/
def Edges : Finset Square :=
  (file_bb 0 ∪ file_bb 7) ∩ (rank_bb 1 ∪ rank_bb 2)

/-- The pawns `shelter_storm` examines: all pawns at or in front of the
king's rank, from `us`'s point of view. -/
def stormRegion (us : Color) (pos : Position) (ksq : Square) : Finset Square :=
  (pos.pawns white ∪ pos.pawns black) ∩ (in_front_bb us (rankOf ksq) ∪ rank_bb (rankOf ksq))

/-- `rkUs` for one examined file: relative rank of our backmost pawn on the
file within the storm region, `RANK_1` when the file holds none. -/
def shelterRankUs (us : Color) (pos : Position) (ksq : Square) (f : Nat) : Nat :=
  let b := stormRegion us pos ksq ∩ pos.pawns us ∩ file_bb f
  if b.Nonempty then relRank us (backmost_sq us b) else 0

/-- `rkThem` for one examined file: relative rank (from `us`) of the enemy's
frontmost pawn on the file within the storm region, `RANK_1` when the file
holds none. -/
def shelterRankThem (us : Color) (pos : Position) (ksq : Square) (f : Nat) : Nat :=
  let b := stormRegion us pos ksq ∩ pos.pawns (other us) ∩ file_bb f
  if b.Nonempty then relRank us (frontmost_sq (other us) b) else 0

/-- The contribution of one examined file to `safety` (loop body, lines
241-257): `+200` in the edge special case, otherwise minus the shelter
weakness for our pawn's rank and the storm danger for the enemy pawn's rank,
keyed by the 3-way no-pawn/unblocked/blocked state. -/
def shelterStormFile (us : Color) (pos : Position) (ksq : Square) (f : Nat) : Int :=
  let rkUs := shelterRankUs us pos ksq f
  let rkThem := shelterRankThem us pos ksq f
  if mkSquare f rkThem ∈ Edges ∧ fileOf ksq = f ∧ relRank us ksq = rkThem - 1 then
    200
  else
    -(ShelterWeaknessT rkUs
      + StormDangerT (if rkUs = 0 then 0 else if rkThem ≠ rkUs + 1 then 1 else 2) rkThem)

/-- `Entry::shelter_storm`: baseline `MaxSafetyBonus` plus the contributions
of the king's file band `kf - 1, kf, kf + 1`, with `kf` clamped to files
B..G. -/
def shelter_storm (us : Color) (pos : Position) (ksq : Square) : Int :=
  let kf := max 1 (min 6 (fileOf ksq))
  MaxSafetyBonus + shelterStormFile us pos ksq (kf - 1)
    + shelterStormFile us pos ksq kf + shelterStormFile us pos ksq (kf + 1)

/-- The expanding ring search of `do_king_safety` (line 275): starting at
index `m = 0`, advance while the distance ring does not meet the pawn set,
returning one past the first hit.  The king-pawn Chebyshev distance is at
most 7, so fuel 8 suffices for any nonempty pawn set. -/
def ringScan (ksq : Square) (pawns : Finset Square) : Nat → Nat → Nat
  | 0, m => m
  | fuel + 1, m =>
      if (DistanceRingsBB ksq m ∩ pawns).Nonempty then m + 1
      else ringScan ksq pawns fuel (m + 1)

/-- `minKingPawnDistance[Us]` as computed by `do_king_safety` (lines
271-275): `0` when the side has no pawns, otherwise the ring search runs. -/
def minKingPawnDistanceOf (ksq : Square) (pawns : Finset Square) : Nat :=
  if pawns.Nonempty then ringScan ksq pawns 8 0 else 0

/-- `Entry::do_king_safety` (lines 266-290), as the returned phase-weighted
score: a king beyond the relative 4th rank skips shelter computation; a king
at home takes the best of the actual and the post-castling shelters. -/
def do_king_safety (us : Color) (pos : Position) (ksq : Square) : Score :=
  let minD := minKingPawnDistanceOf ksq (pos.pawns us)
  if 3 < relRank us ksq then
    make_score 0 (-16 * (minD : Int))
  else
    let bonus := shelter_storm us pos ksq
    let bonus := if pos.canCastleK us then
        max bonus (shelter_storm us pos (relative_square us ⟨6, by omega⟩)) else bonus
    let bonus := if pos.canCastleQ us then
        max bonus (shelter_storm us pos (relative_square us ⟨2, by omega⟩)) else bonus
    make_score bonus (-16 * (minD : Int))

/-! ## The pseudorandom generator seed contract (`prng.h`, lines 40-57) -/

/-- The xorshift64* generator's internal state: a single 64-bit integer. -/
structure PRNG where
  x : Nat

/-- Constructing a `PRNG`: the constructor stores the seed as the state and
asserts `seed != 0` (fatal in debug builds), embedded as returning `none`
exactly when the 64-bit seed is zero. -/
def mkPRNG (seed : Nat) : Option PRNG :=
  let s := seed % 2 ^ 64
  if s = 0 then none else some ⟨s⟩

/-- `rand64()`: three xorshifts on the 64-bit state followed by the
multiplication, all modulo `2^64`. -/
def PRNG.rand64 (p : PRNG) : Nat × PRNG :=
  let x1 := p.x ^^^ (p.x >>> 12)
  let x2 := (x1 ^^^ (x1 <<< 25)) % 2 ^ 64
  let x3 := x2 ^^^ (x2 >>> 27)
  ((x3 * 2685821657736338717) % 2 ^ 64, ⟨x3⟩)

/-! ## Spec-side comparison definition -/

/-- The file span the spec's words describe: "distance between leftmost and
rightmost semi-open file", and `0` when there is no semi-open file.  Stated
from the spec for comparison against the source's `pawnSpanOf`. -/
def specSemiOpenSpan (ours : Finset Square) : Nat :=
  let b := semiopenFilesOf ours
  if h : b.Nonempty then (b.max' h).val - (b.min' h).val else 0

/-! ## Concrete fixtures used by witness theorems -/

/-- A zeroed cache entry, as in the zero-initialized table. -/
def entry0 : Entry :=
  ⟨0, (0, 0), fun _ => ∅, fun _ => none, fun _ => ∅, fun _ => ∅,
   fun _ _ => 0, fun _ => 0, fun _ => (false, false), fun _ => 0⟩

/-- A two-slot zero-initialized table. -/
def table0 : Table := ⟨2, fun _ => entry0⟩

/-- A position with fingerprint 1 and no pawns. -/
def posKey1 : Position := ⟨fun _ => ∅, 1, fun _ => false, fun _ => false⟩

/-- A position with fingerprint 3 and no pawns: collides with `posKey1` in
`table0` (slot `1 % 2 = 3 % 2`). -/
def posKey3 : Position := ⟨fun _ => ∅, 3, fun _ => false, fun _ => false⟩

/-- A position with a single black pawn on a2: the shelter-storm edge case
for a white king on a1. -/
def posEdgeA2 : Position :=
  ⟨fun c => match c with | Color.white => ∅ | Color.black => {8},
   0, fun _ => false, fun _ => false⟩

/-- An asymmetric, well-formed position: white pawns e4, d3, a2; black pawns
c7, c6, h5. -/
def posAsym : Position :=
  ⟨fun c => match c with
    | Color.white => ({28, 19, 8} : Finset Square)
    | Color.black => ({50, 42, 39} : Finset Square),
   0, fun _ => false, fun _ => false⟩

/-- A position where only Black has pawns. -/
def posOnlyBlackPawns : Position :=
  ⟨fun c => match c with | Color.white => ∅ | Color.black => ({48} : Finset Square),
   0, fun _ => false, fun _ => false⟩

/-! ## Membership lemmas for the mask definitions -/

lemma mem_rank_bb {t : Square} {r : Nat} : t ∈ rank_bb r ↔ rankOf t = r := by
  simp [rank_bb]

lemma mem_file_bb {t : Square} {f : Nat} : t ∈ file_bb f ↔ fileOf t = f := by
  simp [file_bb]

lemma mem_adjacent_files_bb {t : Square} {f : Nat} :
    t ∈ adjacent_files_bb f ↔ fileOf t + 1 = f ∨ fileOf t = f + 1 := by
  simp [adjacent_files_bb]

lemma mem_in_front_white {t : Square} {r : Nat} :
    t ∈ in_front_bb Color.white r ↔ r < rankOf t := by
  simp [in_front_bb]

lemma mem_in_front_black {t : Square} {r : Nat} :
    t ∈ in_front_bb Color.black r ↔ rankOf t < r := by
  simp [in_front_bb]

lemma mem_forward_white {s t : Square} :
    t ∈ forward_bb Color.white s ↔ fileOf t = fileOf s ∧ rankOf s < rankOf t := by
  simp [forward_bb, mem_file_bb, mem_in_front_white, Finset.mem_inter]

lemma mem_forward_black {s t : Square} :
    t ∈ forward_bb Color.black s ↔ fileOf t = fileOf s ∧ rankOf t < rankOf s := by
  simp [forward_bb, mem_file_bb, mem_in_front_black, Finset.mem_inter]

lemma mem_span_white {s t : Square} :
    t ∈ pawn_attack_span Color.white s ↔
      (fileOf t + 1 = fileOf s ∨ fileOf t = fileOf s + 1) ∧ rankOf s < rankOf t := by
  simp [pawn_attack_span, mem_adjacent_files_bb, mem_in_front_white, Finset.mem_inter]

lemma mem_span_black {s t : Square} :
    t ∈ pawn_attack_span Color.black s ↔
      (fileOf t + 1 = fileOf s ∨ fileOf t = fileOf s + 1) ∧ rankOf t < rankOf s := by
  simp [pawn_attack_span, mem_adjacent_files_bb, mem_in_front_black, Finset.mem_inter]

/-- Distinct squares on the same file have distinct ranks. -/
lemma rank_ne_of_same_file {a b : Square} (hf : fileOf a = fileOf b) (hne : a ≠ b) :
    rankOf a ≠ rankOf b := by
  intro hr
  apply hne
  apply Fin.ext
  have h1 : a.val % 8 = b.val % 8 := hf
  have h2 : a.val / 8 = b.val / 8 := hr
  omega

/-! ## Mirror-symmetry infrastructure: the vertical flip on squares and
bitboards, and how every mask and classifier flag transforms under it -/

lemma fileOf_flip (s : Square) : fileOf (flipSq s) = fileOf s := by
  simp only [fileOf, flipSq]
  omega

lemma rankOf_flip (s : Square) : rankOf (flipSq s) = 7 - rankOf s := by
  simp only [rankOf, flipSq]
  omega

lemma rankOf_le (s : Square) : rankOf s ≤ 7 := by
  have := s.isLt
  simp only [rankOf]
  omega

lemma flip_flip (s : Square) : flipSq (flipSq s) = s := by
  apply Fin.ext
  simp only [flipSq]
  omega

lemma flip_inj : Function.Injective flipSq := by
  intro a b h
  have := congrArg flipSq h
  rwa [flip_flip, flip_flip] at this

lemma mem_image_flip {b : Finset Square} {t : Square} :
    t ∈ b.image flipSq ↔ flipSq t ∈ b := by
  rw [Finset.mem_image]
  constructor
  · rintro ⟨a, ha, rfl⟩
    rwa [flip_flip]
  · intro h
    exact ⟨flipSq t, h, flip_flip t⟩

lemma image_flip_flip (b : Finset Square) : (b.image flipSq).image flipSq = b := by
  rw [Finset.image_image]
  have : flipSq ∘ flipSq = id := funext flip_flip
  rw [this, Finset.image_id]

lemma flip_inter (A B : Finset Square) :
    (A ∩ B).image flipSq = A.image flipSq ∩ B.image flipSq :=
  Finset.image_inter A B flip_inj

lemma flip_union (A B : Finset Square) :
    (A ∪ B).image flipSq = A.image flipSq ∪ B.image flipSq :=
  Finset.image_union A B

lemma flip_rank_bb {r : Nat} (hr : r ≤ 7) :
    (rank_bb r).image flipSq = rank_bb (7 - r) := by
  ext t
  rw [mem_image_flip, mem_rank_bb, mem_rank_bb, rankOf_flip]
  have := rankOf_le t
  omega

lemma flip_adjacent_files_bb (f : Nat) :
    (adjacent_files_bb f).image flipSq = adjacent_files_bb f := by
  ext t
  rw [mem_image_flip, mem_adjacent_files_bb, mem_adjacent_files_bb, fileOf_flip]

lemma flip_forward_black (s : Square) :
    (forward_bb Color.black s).image flipSq = forward_bb Color.white (flipSq s) := by
  ext t
  rw [mem_image_flip, mem_forward_black, mem_forward_white]
  simp only [fileOf_flip, rankOf_flip]
  have h1 := rankOf_le t
  have h2 := rankOf_le s
  omega

lemma flip_forward_white (s : Square) :
    (forward_bb Color.white s).image flipSq = forward_bb Color.black (flipSq s) := by
  ext t
  rw [mem_image_flip, mem_forward_white, mem_forward_black]
  simp only [fileOf_flip, rankOf_flip]
  have h1 := rankOf_le t
  have h2 := rankOf_le s
  omega

lemma flip_span_black (s : Square) :
    (pawn_attack_span Color.black s).image flipSq
      = pawn_attack_span Color.white (flipSq s) := by
  ext t
  rw [mem_image_flip, mem_span_black, mem_span_white]
  simp only [fileOf_flip, rankOf_flip]
  have h1 := rankOf_le t
  have h2 := rankOf_le s
  omega

lemma flip_span_white (s : Square) :
    (pawn_attack_span Color.white s).image flipSq
      = pawn_attack_span Color.black (flipSq s) := by
  ext t
  rw [mem_image_flip, mem_span_white, mem_span_black]
  simp only [fileOf_flip, rankOf_flip]
  have h1 := rankOf_le t
  have h2 := rankOf_le s
  omega

lemma flip_passed_mask_black (s : Square) :
    (passed_pawn_mask Color.black s).image flipSq
      = passed_pawn_mask Color.white (flipSq s) := by
  rw [passed_pawn_mask, passed_pawn_mask, flip_union, flip_forward_black, flip_span_black]

lemma flip_attacks_black (s : Square) :
    (pawnAttacksBB Color.black s).image flipSq = pawnAttacksBB Color.white (flipSq s) := by
  ext t
  rw [mem_image_flip]
  simp only [pawnAttacksBB, Finset.mem_filter, Finset.mem_univ, true_and, fileOf_flip,
    rankOf_flip]
  have h1 := rankOf_le t
  have h2 := rankOf_le s
  omega

lemma sqAdd_flip (t : Square) (h : 8 ≤ t.val) :
    sqAdd (flipSq t) 8 = flipSq (sqSub t 8) := by
  apply Fin.ext
  have := t.isLt
  simp only [sqAdd, sqSub, flipSq]
  omega

lemma flip_val_lt_56 (t : Square) : (flipSq t).val < 56 ↔ 8 ≤ t.val := by
  have := t.isLt
  simp only [flipSq]
  omega

lemma flip_shift_up_black (b : Finset Square) :
    (shift_bb_up Color.black b).image flipSq
      = shift_bb_up Color.white (b.image flipSq) := by
  ext t
  rw [mem_image_flip]
  simp only [shift_bb_up, Finset.mem_filter, Finset.mem_univ, true_and, mem_image_flip]
  constructor
  · rintro ⟨h1, h2⟩
    have h8 : 8 ≤ t.val := (flip_val_lt_56 t).mp h1
    refine ⟨h8, ?_⟩
    rwa [← sqAdd_flip t h8]
  · rintro ⟨h8, h2⟩
    refine ⟨(flip_val_lt_56 t).mpr h8, ?_⟩
    rwa [sqAdd_flip t h8]

/-! Ranks of extreme squares of a set, and how they flip. -/

lemma rankOf_mono {a b : Square} (h : a ≤ b) : rankOf a ≤ rankOf b := by
  simp only [rankOf]
  have : a.val ≤ b.val := h
  omega

lemma backmost_sq_white {b : Finset Square} (h : b.Nonempty) :
    backmost_sq Color.white b = b.min' h := by
  unfold backmost_sq
  rw [dif_pos h]

lemma backmost_sq_black {b : Finset Square} (h : b.Nonempty) :
    backmost_sq Color.black b = b.max' h := by
  unfold backmost_sq
  rw [dif_pos h]

lemma frontmost_sq_white {b : Finset Square} (h : b.Nonempty) :
    frontmost_sq Color.white b = b.max' h := by
  unfold frontmost_sq
  rw [dif_pos h]

lemma frontmost_sq_black {b : Finset Square} (h : b.Nonempty) :
    frontmost_sq Color.black b = b.min' h := by
  unfold frontmost_sq
  rw [dif_pos h]

lemma rank_backmost_flip {b : Finset Square} (h : b.Nonempty) :
    rankOf (backmost_sq Color.white (b.image flipSq))
      = 7 - rankOf (backmost_sq Color.black b) := by
  have h' : (b.image flipSq).Nonempty := Finset.image_nonempty.mpr h
  rw [backmost_sq_white h', backmost_sq_black h]
  apply Nat.le_antisymm
  · have hmem : flipSq (b.max' h) ∈ b.image flipSq :=
      Finset.mem_image_of_mem _ (Finset.max'_mem b h)
    have := rankOf_mono (Finset.min'_le _ _ hmem)
    rwa [rankOf_flip] at this
  · obtain ⟨a, ha, hae⟩ := Finset.mem_image.mp (Finset.min'_mem (b.image flipSq) h')
    have h1 : rankOf a ≤ rankOf (b.max' h) := rankOf_mono (Finset.le_max' b a ha)
    have h2 : rankOf ((b.image flipSq).min' h') = 7 - rankOf a := by
      rw [← hae, rankOf_flip]
    have := rankOf_le a
    omega

lemma rank_frontmost_flip {b : Finset Square} (h : b.Nonempty) :
    rankOf (frontmost_sq Color.white (b.image flipSq))
      = 7 - rankOf (frontmost_sq Color.black b) := by
  have h' : (b.image flipSq).Nonempty := Finset.image_nonempty.mpr h
  rw [frontmost_sq_white h', frontmost_sq_black h]
  apply Nat.le_antisymm
  · obtain ⟨a, ha, hae⟩ := Finset.mem_image.mp (Finset.max'_mem (b.image flipSq) h')
    have h1 : rankOf (b.min' h) ≤ rankOf a := rankOf_mono (Finset.min'_le b a ha)
    have h2 : rankOf ((b.image flipSq).max' h') = 7 - rankOf a := by
      rw [← hae, rankOf_flip]
    have := rankOf_le a
    have := rankOf_le (b.min' h)
    omega
  · have hmem : flipSq (b.min' h) ∈ b.image flipSq :=
      Finset.mem_image_of_mem _ (Finset.min'_mem b h)
    have := rankOf_mono (Finset.le_max' _ _ hmem)
    rwa [rankOf_flip] at this

/-! Flag-level flip lemmas: each classifier flag computed by Black on a
position equals the flag computed by White on the vertical mirror. -/

lemma relRank_flip (s : Square) : relRank Color.white (flipSq s) = relRank Color.black s := by
  simp [relRank, rankOf_flip]

lemma isolatedF_flip (ours : Finset Square) (s : Square) :
    isolatedF (ours.image flipSq) (flipSq s) = isolatedF ours s := by
  unfold isolatedF
  rw [decide_eq_decide]
  have hset : ours.image flipSq ∩ adjacent_files_bb (fileOf (flipSq s))
      = (ours ∩ adjacent_files_bb (fileOf s)).image flipSq := by
    rw [flip_inter, fileOf_flip, flip_adjacent_files_bb]
  rw [hset, Finset.image_eq_empty]

lemma opposedF_flip (theirs : Finset Square) (s : Square) :
    opposedF Color.white (theirs.image flipSq) (flipSq s) = opposedF Color.black theirs s := by
  unfold opposedF
  rw [decide_eq_decide]
  have hset : theirs.image flipSq ∩ forward_bb Color.white (flipSq s)
      = (theirs ∩ forward_bb Color.black s).image flipSq := by
    rw [flip_inter, flip_forward_black]
  rw [hset, Finset.image_nonempty]

lemma passedF_flip (theirs : Finset Square) (s : Square) :
    passedF Color.white (theirs.image flipSq) (flipSq s) = passedF Color.black theirs s := by
  unfold passedF
  rw [decide_eq_decide]
  have hset : theirs.image flipSq ∩ passed_pawn_mask Color.white (flipSq s)
      = (theirs ∩ passed_pawn_mask Color.black s).image flipSq := by
    rw [flip_inter, flip_passed_mask_black]
  rw [hset, Finset.image_eq_empty]

lemma leverF_flip (theirs : Finset Square) (s : Square) :
    leverF Color.white (theirs.image flipSq) (flipSq s) = leverF Color.black theirs s := by
  unfold leverF
  rw [decide_eq_decide]
  have hset : theirs.image flipSq ∩ pawnAttacksBB Color.white (flipSq s)
      = (theirs ∩ pawnAttacksBB Color.black s).image flipSq := by
    rw [flip_inter, flip_attacks_black]
  rw [hset, Finset.image_nonempty]

lemma connectedBB_flip (ours : Finset Square) (s : Square) (hr : rankOf s ≤ 6) :
    connectedBB Color.white (ours.image flipSq) (flipSq s)
      = (connectedBB Color.black ours s).image flipSq := by
  simp only [connectedBB, prevRank, flip_inter, flip_union, flip_adjacent_files_bb,
    fileOf_flip, rankOf_flip]
  rw [flip_rank_bb (rankOf_le s), flip_rank_bb (show rankOf s + 1 ≤ 7 by omega),
    Nat.sub_sub]

lemma connectedF_flip (ours : Finset Square) (s : Square) (hr : rankOf s ≤ 6) :
    connectedF Color.white (ours.image flipSq) (flipSq s)
      = connectedF Color.black ours s := by
  unfold connectedF
  rw [decide_eq_decide, connectedBB_flip ours s hr, Finset.image_nonempty]

lemma phalanxF_flip (ours : Finset Square) (s : Square) (hr : rankOf s ≤ 6) :
    phalanxF Color.white (ours.image flipSq) (flipSq s) = phalanxF Color.black ours s := by
  unfold phalanxF phalanxBB
  rw [decide_eq_decide, connectedBB_flip ours s hr, rankOf_flip,
    ← flip_rank_bb (rankOf_le s), ← flip_inter, Finset.image_nonempty]

lemma unsupportedF_flip (ours : Finset Square) (s : Square) (hr : rankOf s ≤ 6) :
    unsupportedF Color.white (ours.image flipSq) (flipSq s)
      = unsupportedF Color.black ours s := by
  unfold unsupportedF
  rw [decide_eq_decide]
  have hset : ours.image flipSq ∩ adjacent_files_bb (fileOf (flipSq s))
        ∩ rank_bb (prevRank Color.white (flipSq s))
      = (ours ∩ adjacent_files_bb (fileOf s) ∩ rank_bb (prevRank Color.black s)).image
          flipSq := by
    simp only [prevRank, flip_inter, flip_adjacent_files_bb, fileOf_flip, rankOf_flip]
    rw [flip_rank_bb (show rankOf s + 1 ≤ 7 by omega), Nat.sub_sub]
  rw [hset, Finset.image_eq_empty]

lemma doubledBB_flip (ours : Finset Square) (s : Square) :
    doubledBB Color.white (ours.image flipSq) (flipSq s)
      = (doubledBB Color.black ours s).image flipSq := by
  unfold doubledBB
  rw [flip_inter, flip_forward_black]

lemma doubledF_flip (ours : Finset Square) (s : Square) :
    doubledF Color.white (ours.image flipSq) (flipSq s) = doubledF Color.black ours s := by
  unfold doubledF
  rw [decide_eq_decide, doubledBB_flip, Finset.image_nonempty]

lemma shift_up_span_subset {c : Color} {s : Square} {X : Finset Square}
    (hX : X ⊆ pawn_attack_span c s) : shift_bb_up c X ⊆ pawn_attack_span c s := by
  intro t ht
  cases c
  · simp only [shift_bb_up, Finset.mem_filter, Finset.mem_univ, true_and] at ht
    obtain ⟨h8, hmem⟩ := ht
    have hs := mem_span_white.mp (hX hmem)
    apply mem_span_white.mpr
    have hf : fileOf (sqSub t 8) = fileOf t := by
      simp only [fileOf, sqSub]
      omega
    have hrk : rankOf (sqSub t 8) + 1 = rankOf t := by
      simp only [rankOf, sqSub]
      omega
    rw [hf] at hs
    exact ⟨hs.1, by omega⟩
  · simp only [shift_bb_up, Finset.mem_filter, Finset.mem_univ, true_and] at ht
    obtain ⟨h56, hmem⟩ := ht
    have hs := mem_span_black.mp (hX hmem)
    apply mem_span_black.mpr
    have hf : fileOf (sqAdd t 8) = fileOf t := by
      simp only [fileOf, sqAdd]
      omega
    have hrk : rankOf (sqAdd t 8) = rankOf t + 1 := by
      simp only [rankOf, sqAdd]
      omega
    rw [hf] at hs
    exact ⟨hs.1, by omega⟩

lemma backward_probe_empty {c : Color} {s : Square} {ours theirs : Finset Square}
    (hb : pawn_attack_span c s ∩ (ours ∪ theirs) = ∅) (X : Finset Square)
    (hX : X ⊆ pawn_attack_span c s) : (X ∪ shift_bb_up c X) ∩ theirs = ∅ := by
  have hth : pawn_attack_span c s ∩ theirs = ∅ := by
    apply Finset.eq_empty_of_forall_not_mem
    intro x hx
    rw [Finset.mem_inter] at hx
    have : x ∈ pawn_attack_span c s ∩ (ours ∪ theirs) :=
      Finset.mem_inter.mpr ⟨hx.1, Finset.mem_union_right _ hx.2⟩
    rw [hb] at this
    exact Finset.not_mem_empty x this
  apply Finset.eq_empty_of_forall_not_mem
  intro x hx
  rw [Finset.mem_inter, Finset.mem_union] at hx
  obtain ⟨hx1 | hx1, hx2⟩ := hx
  · have : x ∈ pawn_attack_span c s ∩ theirs := Finset.mem_inter.mpr ⟨hX hx1, hx2⟩
    rw [hth] at this
    exact Finset.not_mem_empty x this
  · have : x ∈ pawn_attack_span c s ∩ theirs :=
      Finset.mem_inter.mpr ⟨shift_up_span_subset hX hx1, hx2⟩
    rw [hth] at this
    exact Finset.not_mem_empty x this

lemma backwardF_flip (ours theirs : Finset Square) (s : Square) (hr : rankOf s ≤ 6) :
    backwardF Color.white (ours.image flipSq) (theirs.image flipSq) (flipSq s)
      = backwardF Color.black ours theirs s := by
  unfold backwardF
  have hspan : ours.image flipSq ∩ pawn_attack_span (other Color.white) (flipSq s)
      = (ours ∩ pawn_attack_span (other Color.black) s).image flipSq := by
    show ours.image flipSq ∩ pawn_attack_span Color.black (flipSq s)
      = (ours ∩ pawn_attack_span Color.white s).image flipSq
    rw [flip_inter, flip_span_white]
  have hatk : pawnAttacksBB Color.white (flipSq s) ∩ theirs.image flipSq
      = (pawnAttacksBB Color.black s ∩ theirs).image flipSq := by
    rw [flip_inter, flip_attacks_black]
  rw [passedF_flip, isolatedF_flip, connectedF_flip ours s hr]
  rw [show decide (ours.image flipSq ∩ pawn_attack_span (other Color.white)
        (flipSq s)).Nonempty
      = decide (ours ∩ pawn_attack_span (other Color.black) s).Nonempty from by
    rw [decide_eq_decide, hspan, Finset.image_nonempty]]
  rw [show decide (pawnAttacksBB Color.white (flipSq s) ∩ theirs.image flipSq).Nonempty
      = decide (pawnAttacksBB Color.black s ∩ theirs).Nonempty from by
    rw [decide_eq_decide, hatk, Finset.image_nonempty]]
  by_cases hcond : (passedF Color.black theirs s || isolatedF ours s
      || connectedF Color.black ours s
      || decide (ours ∩ pawn_attack_span (other Color.black) s).Nonempty
      || decide (pawnAttacksBB Color.black s ∩ theirs).Nonempty) = true
  · rw [if_pos hcond, if_pos hcond]
  · rw [if_neg hcond, if_neg hcond]
    have hbflip : pawn_attack_span Color.white (flipSq s)
        ∩ (ours.image flipSq ∪ theirs.image flipSq)
        = (pawn_attack_span Color.black s ∩ (ours ∪ theirs)).image flipSq := by
      rw [flip_inter, flip_union, flip_span_black]
    by_cases hbe : pawn_attack_span Color.black s ∩ (ours ∪ theirs) = ∅
    · have hbeW : pawn_attack_span Color.white (flipSq s)
          ∩ (ours.image flipSq ∪ theirs.image flipSq) = ∅ := by
        rw [hbflip, hbe, Finset.image_empty]
      rw [decide_eq_decide]
      have hW := @backward_probe_empty Color.white (flipSq s) (ours.image flipSq)
        (theirs.image flipSq) hbeW
        (pawn_attack_span Color.white (flipSq s)
          ∩ rank_bb (rankOf (backmost_sq Color.white (pawn_attack_span Color.white (flipSq s)
              ∩ (ours.image flipSq ∪ theirs.image flipSq)))))
        Finset.inter_subset_left
      have hB := @backward_probe_empty Color.black s ours theirs hbe
        (pawn_attack_span Color.black s
          ∩ rank_bb (rankOf (backmost_sq Color.black (pawn_attack_span Color.black s
              ∩ (ours ∪ theirs)))))
        Finset.inter_subset_left
      rw [hW, hB]
    · have hbne : (pawn_attack_span Color.black s ∩ (ours ∪ theirs)).Nonempty :=
        Finset.nonempty_iff_ne_empty.mpr hbe
      have hrank : rankOf (backmost_sq Color.white (pawn_attack_span Color.white (flipSq s)
            ∩ (ours.image flipSq ∪ theirs.image flipSq)))
          = 7 - rankOf (backmost_sq Color.black (pawn_attack_span Color.black s
            ∩ (ours ∪ theirs))) := by
        rw [hbflip]
        exact rank_backmost_flip hbne
      rw [decide_eq_decide, hrank]
      have hb2 : pawn_attack_span Color.white (flipSq s)
            ∩ rank_bb (7 - rankOf (backmost_sq Color.black (pawn_attack_span Color.black s
              ∩ (ours ∪ theirs))))
          = (pawn_attack_span Color.black s
              ∩ rank_bb (rankOf (backmost_sq Color.black (pawn_attack_span Color.black s
                ∩ (ours ∪ theirs))))).image flipSq := by
        rw [flip_inter, flip_span_black, flip_rank_bb (rankOf_le _)]
      rw [hb2, ← flip_shift_up_black, ← flip_union, ← flip_inter, Finset.image_nonempty]

lemma pawnScore_flip (ours theirs : Finset Square) (s : Square) (hr : rankOf s ≤ 6) :
    pawnScore Color.white (ours.image flipSq) (theirs.image flipSq) (flipSq s)
      = pawnScore Color.black ours theirs s := by
  unfold pawnScore
  rw [fileOf_flip, isolatedF_flip, opposedF_flip, unsupportedF_flip ours s hr,
    doubledF_flip, backwardF_flip ours theirs s hr, connectedF_flip ours s hr,
    phalanxF_flip ours s hr, leverF_flip, relRank_flip]
  cases hd : doubledF Color.black ours s
  · simp [hd]
  · have hne : (doubledBB Color.black ours s).Nonempty := of_decide_eq_true hd
    have hfr : rankOf (frontmost_sq Color.white
          (doubledBB Color.white (ours.image flipSq) (flipSq s)))
        = 7 - rankOf (frontmost_sq Color.black (doubledBB Color.black ours s)) := by
      rw [doubledBB_flip]
      exact rank_frontmost_flip hne
    rw [hfr, rankOf_flip]
    have h1 := rankOf_le s
    have h2 := rankOf_le (frontmost_sq Color.black (doubledBB Color.black ours s))
    have habs : (((7 - rankOf s : Nat) : Int)
          - ((7 - rankOf (frontmost_sq Color.black (doubledBB Color.black ours s)) : Nat)
              : Int)).natAbs
        = (((rankOf s : Nat) : Int)
          - ((rankOf (frontmost_sq Color.black (doubledBB Color.black ours s)) : Nat)
              : Int)).natAbs := by
      omega
    rw [habs]

lemma evaluateValue_flip (ours theirs : Finset Square)
    (h : ∀ s ∈ ours, rankOf s ≤ 6) :
    evaluateValue Color.white (ours.image flipSq) (theirs.image flipSq)
      = evaluateValue Color.black ours theirs := by
  unfold evaluateValue
  rw [Finset.sum_image (fun x _ y _ hxy => flip_inj hxy)]
  exact Finset.sum_congr rfl (fun s hs => pawnScore_flip ours theirs s (h s hs))

/-! # Claims -/

/-- C9: constructing the deterministic pseudorandom generator with seed 0
violates its assertion — embedded as a `none` result; for every non-zero
64-bit seed, construction succeeds and the internal state equals the seed. -/
theorem prng_seed_contract :
    mkPRNG 0 = none ∧
    ∀ seed : Nat, seed < 2 ^ 64 → seed ≠ 0 → mkPRNG seed = some ⟨seed⟩ := by
  refine ⟨rfl, ?_⟩
  intro seed hlt hne
  simp only [mkPRNG, Nat.mod_eq_of_lt hlt]
  rw [if_neg hne]

/-- Witness for C9: seed 5 is accepted and stored. -/
theorem prng_seed_contract_witness :
    (5 : Nat) < 2  ^ 64 ∧ (5 : Nat) ≠ 0 ∧ mkPRNG 5 = some ⟨5⟩ :=
  ⟨by decide, by decide, prng_seed_contract.2 5 (by decide) (by decide)⟩

/-- C2 counterexample: for a side with pawns on files A and H only
(squares a2 and h2), the code's `pawnSpan` is `7` — the span of the files
*occupied* by own pawns — while the distance between the leftmost and
rightmost semi-open files (B and G) is `5`. -/
theorem pawnSpan_counterexample :
    pawnSpanOf ({8, 15} : Finset Square) = 7 ∧
    specSemiOpenSpan ({8, 15} : Finset Square) = 5 ∧
    pawnSpanOf ({8, 15} : Finset Square) ≠ specSemiOpenSpan ({8, 15} : Finset Square) := by
  decide

/-- C2 amended: after the classifier runs, `pawnSpan` equals the distance
between the leftmost and rightmost file *occupied* by a pawn of that side
(the complement of the semi-open file mask), and `0` when the side has no
pawns.  The first conjunct identifies the complemented semi-open mask with
the occupied files; the second evaluates the span on it. -/
theorem pawnSpan_eq_occupied_file_span :
    ∀ ours : Finset Square,
      Finset.univ \ semiopenFilesOf ours = ours.image fileIdx ∧
      pawnSpanOf ours =
        (if h : (ours.image fileIdx).Nonempty
         then ((ours.image fileIdx).max' h).val - ((ours.image fileIdx).min' h).val
         else 0) := by
  intro ours
  have hocc : Finset.univ \ semiopenFilesOf ours = ours.image fileIdx := by
    rw [semiopenFilesOf, Finset.sdiff_sdiff_eq_self (Finset.subset_univ _)]
  refine ⟨hocc, ?_⟩
  rw [pawnSpanOf]
  simp only [hocc]

/-- C4: for a king whose relative rank exceeds the 4th rank,
`do_king_safety` skips shelter computation and returns midgame term `0` and
endgame term `-16` times the minimum king-pawn distance, regardless of pawn
cover. -/
theorem king_beyond_fourth_rank :
    ∀ (us : Color) (pos : Position) (ksq : Square), 3 < relRank us ksq →
      do_king_safety us pos ksq =
        make_score 0 (-16 * (minKingPawnDistanceOf ksq (pos.pawns us) : Int)) := by
  intro us pos ksq h
  unfold do_king_safety
  simp [h]

/-- Witness for C4: a white king on e5 (relative rank index 4). -/
theorem king_beyond_fourth_rank_witness :
    3 < relRank Color.white ⟨36, by omega⟩ ∧
    do_king_safety Color.white posAsym ⟨36, by omega⟩ =
      make_score 0
        (-16 * (minKingPawnDistanceOf ⟨36, by omega⟩ (posAsym.pawns Color.white) : Int)) :=
  ⟨by decide, king_beyond_fourth_rank Color.white posAsym ⟨36, by omega⟩ (by decide)⟩

/-- C10: for a side with no pawns, `do_king_safety` leaves the minimum
king-pawn distance at `0` (the ring search runs only when a pawn exists), so
the endgame component of the returned score is exactly `0`. -/
theorem pawnless_king_distance :
    ∀ (us : Color) (pos : Position) (ksq : Square), pos.pawns us = ∅ →
      minKingPawnDistanceOf ksq (pos.pawns us) = 0 ∧
      (do_king_safety us pos ksq).2 = 0 := by
  intro us pos ksq h
  have h1 : minKingPawnDistanceOf ksq (pos.pawns us) = 0 := by
    simp [minKingPawnDistanceOf, h]
  refine ⟨h1, ?_⟩
  unfold do_king_safety
  rw [h1]
  split <;> simp [make_score]

/-- Witness for C10: White has no pawns in `posOnlyBlackPawns`; its king on
e1 gets a zero endgame king-pawn-distance term. -/
theorem pawnless_king_distance_witness :
    posOnlyBlackPawns.pawns Color.white = ∅ ∧
    minKingPawnDistanceOf ⟨4, by omega⟩ (posOnlyBlackPawns.pawns Color.white) = 0 ∧
    (do_king_safety Color.white posOnlyBlackPawns ⟨4, by omega⟩).2 = 0 :=
  ⟨rfl, pawnless_king_distance Color.white posOnlyBlackPawns ⟨4, by omega⟩ rfl⟩

/-- C8: in `shelter_storm`, when the enemy's frontmost pawn on an examined
file stands on a corner-adjacent edge square (file A or H, relative rank
index 1 or 2), the file is the king's own file, and the king stands one rank
behind that pawn, the file contributes a fixed `+200` bonus to safety
instead of subtracting the shelter-weakness and storm-danger penalties. -/
theorem shelter_storm_edge_bonus :
    ∀ (us : Color) (pos : Position) (ksq : Square) (f : Nat),
      (f = 0 ∨ f = 7) →
      (shelterRankThem us pos ksq f = 1 ∨ shelterRankThem us pos ksq f = 2) →
      fileOf ksq = f →
      relRank us ksq = shelterRankThem us pos ksq f - 1 →
      shelterStormFile us pos ksq f = 200 := by
  intro us pos ksq f hf hr hkf hrel
  have hedge : mkSquare f (shelterRankThem us pos ksq f) ∈ Edges := by
    rcases hf with rfl | rfl <;> rcases hr with h | h <;> rw [h] <;> decide
  unfold shelterStormFile
  rw [if_pos ⟨hedge, hkf, hrel⟩]

set_option maxRecDepth 100000 in
/-- Witness for C8: white king on a1, black pawn on a2 — the examined
file A contributes `+200`. -/
theorem shelter_storm_edge_bonus_witness :
    shelterRankThem Color.white posEdgeA2 ⟨0, by omega⟩ 0 = 1 ∧
    fileOf (⟨0, by omega⟩ : Square) = 0 ∧
    relRank Color.white ⟨0, by omega⟩ = 0 ∧
    shelterStormFile Color.white posEdgeA2 ⟨0, by omega⟩ 0 = 200 :=
  ⟨by decide, by decide, by decide,
   shelter_storm_edge_bonus Color.white posEdgeA2 ⟨0, by omega⟩ 0 (Or.inl rfl)
     (Or.inl (by decide)) (by decide) (by decide)⟩

/-- C5: the per-pawn loop invariant asserted at line 152 — every pawn is
opposed, or passed, or its forward attack-span on the adjacent files meets
the enemy pawns; the assertion can never fail. -/
theorem opposed_passed_contested_invariant :
    ∀ (us : Color) (theirs : Finset Square) (s : Square),
      (opposedF us theirs s || passedF us theirs s
        || decide (pawn_attack_span us s ∩ theirs).Nonempty) = true := by
  intro us theirs s
  simp only [opposedF, passedF, Bool.or_eq_true, decide_eq_true_eq]
  by_cases hp : theirs ∩ passed_pawn_mask us s = ∅
  · exact Or.inl (Or.inr hp)
  · rcases Finset.nonempty_iff_ne_empty.mpr hp with ⟨q, hq⟩
    rw [passed_pawn_mask, Finset.mem_inter, Finset.mem_union] at hq
    rcases hq with ⟨hqt, hqf | hqs⟩
    · exact Or.inl (Or.inl ⟨q, Finset.mem_inter.mpr ⟨hqt, hqf⟩⟩)
    · exact Or.inr ⟨q, Finset.mem_inter.mpr ⟨hqs, hqt⟩⟩

/-- C6: for every pawn, `isolated` and `backward` are never both true, and
`isolated` and `connected` are never both true. -/
theorem isolated_excludes_backward_connected :
    ∀ (us : Color) (ours theirs : Finset Square) (s : Square),
      (isolatedF ours s && backwardF us ours theirs s) = false ∧
      (isolatedF ours s && connectedF us ours s) = false := by
  intro us ours theirs s
  cases hiso : isolatedF ours s
  · simp
  · constructor
    · have hb : backwardF us ours theirs s = false := by
        unfold backwardF
        simp [hiso]
      simp [hb]
    · have hempty : ours ∩ adjacent_files_bb (fileOf s) = ∅ := by
        have := of_decide_eq_true hiso
        exact this
      have hc : connectedBB us ours s = ∅ := by
        rw [connectedBB, hempty, Finset.empty_inter]
      simp [connectedF, hc]

/-- C3: a pawn's square is recorded in the side's `passedPawns` bitmap iff
the pawn is passed (no enemy pawn in its passed-pawn mask) and not doubled
(no own pawn strictly ahead on its file); consequently at most one pawn per
file and side is flagged as a passed-pawn candidate. -/
theorem passed_pawns_characterization :
    ∀ (us : Color) (ours theirs : Finset Square),
      (∀ s : Square, s ∈ passedPawnsOf us ours theirs ↔
        s ∈ ours ∧ theirs ∩ passed_pawn_mask us s = ∅ ∧ ours ∩ forward_bb us s = ∅) ∧
      (∀ f : Fin 8,
        ((passedPawnsOf us ours theirs).filter (fun s => fileIdx s = f)).card ≤ 1) := by
  intro us ours theirs
  have hmem : ∀ s : Square, s ∈ passedPawnsOf us ours theirs ↔
      s ∈ ours ∧ theirs ∩ passed_pawn_mask us s = ∅ ∧ ours ∩ forward_bb us s = ∅ := by
    intro s
    simp only [passedPawnsOf, Finset.mem_filter, passedF, doubledF, doubledBB,
      Bool.and_eq_true, Bool.not_eq_true', decide_eq_true_eq, decide_eq_false_iff_not,
      Finset.not_nonempty_iff_eq_empty, and_assoc]
  refine ⟨hmem, ?_⟩
  intro f
  rw [Finset.card_le_one]
  intro a ha b hb
  rw [Finset.mem_filter] at ha hb
  obtain ⟨hpa, hfa⟩ := ha
  obtain ⟨hpb, hfb⟩ := hb
  rw [hmem] at hpa hpb
  obtain ⟨hao, -, hand⟩ := hpa
  obtain ⟨hbo, -, hbnd⟩ := hpb
  by_contra hne
  have hfile : fileOf a = fileOf b := by
    have : fileIdx a = fileIdx b := hfa.trans hfb.symm
    simpa [fileIdx, fileOf, Fin.ext_iff] using this
  have hrank : rankOf a ≠ rankOf b := rank_ne_of_same_file hfile hne
  cases us
  · rcases Nat.lt_or_ge (rankOf a) (rankOf b) with hlt | hge
    · have : b ∈ ours ∩ forward_bb Color.white a :=
        Finset.mem_inter.mpr ⟨hbo, mem_forward_white.mpr ⟨hfile.symm, hlt⟩⟩
      rw [hand] at this
      exact absurd this (Finset.not_mem_empty b)
    · have hlt : rankOf b < rankOf a := lt_of_le_of_ne hge (Ne.symm hrank)
      have : a ∈ ours ∩ forward_bb Color.white b :=
        Finset.mem_inter.mpr ⟨hao, mem_forward_white.mpr ⟨hfile, hlt⟩⟩
      rw [hbnd] at this
      exact absurd this (Finset.not_mem_empty a)
  · rcases Nat.lt_or_ge (rankOf a) (rankOf b) with hlt | hge
    · have : a ∈ ours ∩ forward_bb Color.black b :=
        Finset.mem_inter.mpr ⟨hao, mem_forward_black.mpr ⟨hfile, hlt⟩⟩
      rw [hbnd] at this
      exact absurd this (Finset.not_mem_empty a)
    · have hlt : rankOf b < rankOf a := lt_of_le_of_ne hge (Ne.symm hrank)
      have : b ∈ ours ∩ forward_bb Color.black a :=
        Finset.mem_inter.mpr ⟨hbo, mem_forward_black.mpr ⟨hfile.symm, hlt⟩⟩
      rw [hand] at this
      exact absurd this (Finset.not_mem_empty b)

/-! ## Probe helper lemmas -/

/-- `probe` never changes the table's capacity. -/
lemma probe_size (pos : Position) (t : Table) : (probe pos t).2.1.size = t.size := by
  unfold probe
  split <;> rfl

/-- After a probe, the probed slot holds the position's key (a hit leaves the
matching entry in place; a miss overwrites the slot). -/
lemma probe_slot_key (pos : Position) (t : Table) :
    ((probe pos t).2.1.slots (pos.pawnKey % t.size)).key = pos.pawnKey := by
  unfold probe
  split
  · next h => exact h
  · simp [computeEntry]

/-- On a key mismatch, the probe reports a classifier run. -/
lemma probe_miss_run (pos : Position) (t : Table)
    (h : (t.slots (pos.pawnKey % t.size)).key ≠ pos.pawnKey) :
    (probe pos t).2.2 = true := by
  unfold probe
  rw [if_neg h]

/-- On a key mismatch, the returned entry is the freshly repopulated one. -/
lemma probe_miss_entry (pos : Position) (t : Table)
    (h : (t.slots (pos.pawnKey % t.size)).key ≠ pos.pawnKey) :
    (probe pos t).1 = computeEntry (t.slots (pos.pawnKey % t.size)) pos := by
  unfold probe
  rw [if_neg h]

/-- C1: `probe` never returns stale data for a mismatched key — the returned
entry always carries the probed position's pawn key, a miss repopulates by
running the classifier for both sides (the entry's value is
`evaluate<WHITE> - evaluate<BLACK>`), and for two distinct fingerprints
mapping to the same slot, probing `f1; f2; f1` re-runs the classifier on the
second `f1` probe instead of returning the evicted entry. -/
theorem probe_never_stale :
    (∀ (pos : Position) (t : Table), (probe pos t).1.key = pos.pawnKey) ∧
    (∀ (pos : Position) (t : Table),
      (t.slots (pos.pawnKey % t.size)).key ≠ pos.pawnKey →
      (probe pos t).2.2 = true ∧ (probe pos t).1.value = entryValue pos) ∧
    (∀ (p1 p2 : Position) (t0 : Table),
      p1.pawnKey ≠ p2.pawnKey →
      p1.pawnKey % t0.size = p2.pawnKey % t0.size →
      (probe p1 (probe p2 (probe p1 t0).2.1).2.1).2.2 = true ∧
      (probe p1 (probe p2 (probe p1 t0).2.1).2.1).1.value = entryValue p1) := by
  refine ⟨?_, ?_, ?_⟩
  · intro pos t
    unfold probe
    split
    · next h => exact h
    · rfl
  · intro pos t h
    exact ⟨probe_miss_run pos t h, by rw [probe_miss_entry pos t h]; rfl⟩
  · intro p1 p2 t0 hne hslot
    set t1 := (probe p1 t0).2.1 with ht1
    set t2 := (probe p2 t1).2.1 with ht2
    have h1size : t1.size = t0.size := probe_size p1 t0
    have h2size : t2.size = t1.size := probe_size p2 t1
    have h2key : (t2.slots (p2.pawnKey % t1.size)).key = p2.pawnKey := probe_slot_key p2 t1
    have hi3 : p1.pawnKey % t2.size = p2.pawnKey % t1.size := by
      rw [h2size, h1size, hslot]
    have hmiss : (t2.slots (p1.pawnKey % t2.size)).key ≠ p1.pawnKey := by
      rw [hi3, h2key]
      exact (Ne.symm hne)
    exact ⟨probe_miss_run p1 t2 hmiss, by rw [probe_miss_entry p1 t2 hmiss]; rfl⟩

/-- Witness for C1: keys 1 and 3 collide in the two-slot table; the second
probe of key 1 re-runs the classifier. -/
theorem probe_never_stale_witness :
    posKey1.pawnKey ≠ posKey3.pawnKey ∧
    posKey1.pawnKey % table0.size = posKey3.pawnKey % table0.size ∧
    (probe posKey1 (probe posKey3 (probe posKey1 table0).2.1).2.1).2.2 = true ∧
    (probe posKey1 (probe posKey3 (probe posKey1 table0).2.1).2.1).1.value =
      entryValue posKey1 :=
  ⟨by decide, by decide, probe_never_stale.2.2 posKey1 posKey3 table0 (by decide) (by decide)⟩

/-- C7: the White-relative pawn-structure score a probe computes for a
well-formed position equals the negation of the score computed for the
position's color-flipped mirror. -/
theorem mirror_score_antisymmetric :
    ∀ pos : Position, WellFormed pos → entryValue pos = - entryValue (mirror pos) := by
  intro pos hwf
  have hB : ∀ s ∈ pos.pawns Color.black, rankOf s ≤ 6 :=
    fun s hs => (hwf Color.black s hs).2
  have hWflip : ∀ s ∈ (pos.pawns Color.white).image flipSq, rankOf s ≤ 6 := by
    intro s hs
    obtain ⟨a, ha, rfl⟩ := Finset.mem_image.mp hs
    have h1 := (hwf Color.white a ha).1
    rw [rankOf_flip]
    omega
  have hmw : (mirror pos).pawns Color.white = (pos.pawns Color.black).image flipSq := rfl
  have hmb : (mirror pos).pawns Color.black = (pos.pawns Color.white).image flipSq := rfl
  unfold entryValue
  rw [hmw, hmb]
  rw [evaluateValue_flip (pos.pawns Color.black) (pos.pawns Color.white) hB]
  rw [show evaluateValue Color.black ((pos.pawns Color.white).image flipSq)
        ((pos.pawns Color.black).image flipSq)
      = evaluateValue Color.white (pos.pawns Color.white) (pos.pawns Color.black) from by
    rw [← evaluateValue_flip ((pos.pawns Color.white).image flipSq)
        ((pos.pawns Color.black).image flipSq) hWflip, image_flip_flip, image_flip_flip]]
  rw [neg_sub]

set_option maxRecDepth 100000 in
/-- Witness for C7: the asymmetric position `posAsym` is well-formed, and
its probe score is the negation of its mirror's. -/
theorem mirror_score_antisymmetric_witness :
    WellFormed posAsym ∧ entryValue posAsym = - entryValue (mirror posAsym) :=
  ⟨by unfold WellFormed; decide,
   mirror_score_antisymmetric posAsym (by unfold WellFormed; decide)⟩

end Pawns
